import Mathlib

/-!
Verification development for the raycast-ai-openrouter-proxy repository.

The development shallowly embeds the translation pipeline of the proxy:

* `src/util.ts` (`makeOllamaChunk`, `convertOllamaMessagesToOpenAI`,
  `convertRaycastToolsToOpenAI`, the zod schemas for inbound requests),
* `src/controllers/api.ts` (`chatCompletion`: the streaming loop, the
  reasoning/content sequencer, the tool-call accumulator, the terminal
  frame, the `cleanup` routine),
* `src/data/models.ts` (`findModelConfig`, `fetchLocalOllamaModels`).

Conventions of the embedding:

* `JSON.parse` is an external library routine; it is a parameter
  `parse : String → Option Json` of every definition that calls it
  (`none` models a thrown `SyntaxError`).
* `randomBytes`-based id minting is a parameter `fresh : Nat → String`
  indexed by how many ids were minted so far in the request.
* Wall-clock fields (`created_at`) and log output are not modelled.
* A JavaScript `Record<number, T>` is modelled as an association list
  `List (Nat × T)`; `for (const key in record)` enumerates integer-like
  keys in ascending numeric order, modelled by sorting on the key.
* Optional / possibly-`undefined` values are `Option`; JavaScript
  string truthiness (`''` is falsy) is modelled explicitly.
-/

namespace RaycastProxy

/-- Structured data produced by a successful `JSON.parse` (numbers are
modelled as integers; floating point is irrelevant to the claims). -/
inductive Json where
  | null : Json
  | bool (b : Bool) : Json
  | num (n : Int) : Json
  | str (s : String) : Json
  | arr (elements : List Json) : Json
  | obj (fields : List (String × Json)) : Json
deriving Repr

/-- Rendering of structured data, modelling `JSON.stringify` (string
escaping is elided; no claim depends on it). -/
def jsonStringify : Json → String
  | .null => "null"
  | .bool true => "true"
  | .bool false => "false"
  | .num n => toString n
  | .str s => "\"" ++ s ++ "\""
  | .arr elements =>
      "[" ++ String.intercalate "," (elements.attach.map fun e => jsonStringify e.1) ++ "]"
  | .obj fields =>
      "\x7b" ++
        String.intercalate ","
          (fields.attach.map fun f => "\"" ++ f.1.1 ++ "\":" ++ jsonStringify f.1.2) ++
      "\x7d"
decreasing_by
  · have h := List.sizeOf_lt_of_mem e.2
    simp_wf
    omega
  · have h := List.sizeOf_lt_of_mem f.2
    have h2 : sizeOf f.1.2 < sizeOf f.1 := by
      obtain ⟨a, b⟩ := f.1
      simp
    simp_wf
    omega

/-! ### Tool declarations (src/util.ts, `RaycastRequestTool`) -/

/-- Function payload of a `local_tool` declaration; `parameters` is the
declared JSON-schema object, a `Record<string, any>`. -/
structure RaycastToolFunction where
  name : String
  description : String
  parameters : List (String × Json)
deriving Repr

/-- Inbound tool declaration: the zod discriminated union on `type`
(`remote_tool` carries only a name, `local_tool` carries a function). -/
inductive RaycastRequestTool where
  | remoteTool (name : String) : RaycastRequestTool
  | localTool (function : RaycastToolFunction) : RaycastRequestTool
deriving Repr

/-- Zod `.transform` on `local_tool.function.parameters`: an empty
record is replaced by the minimal empty-object JSON schema. -/
def transformParameters (value : List (String × Json)) : List (String × Json) :=
  if value.length = 0 then
    [("type", Json.str "object"), ("properties", Json.obj []), ("required", Json.arr [])]
  else value

/-- Application of the zod transform during request parsing: `remote_tool`
declarations are untouched, `local_tool` parameters go through
`transformParameters`. -/
def parseRaycastTool : RaycastRequestTool → RaycastRequestTool
  | .remoteTool n => .remoteTool n
  | .localTool f => .localTool { f with parameters := transformParameters f.parameters }

/-- Test used by `convertRaycastToolsToOpenAI`'s filter:
`tool.type === 'local_tool'`. -/
def isLocalTool : RaycastRequestTool → Bool
  | .localTool _ => true
  | .remoteTool _ => false

/-- Access to `tool.function`. Only reached after the `local_tool`
filter; the `remote_tool` value is never produced by the converter. -/
def toolFunction : RaycastRequestTool → RaycastToolFunction
  | .localTool f => f
  | .remoteTool n => { name := n, description := "", parameters := [] }

/-- Outbound `ChatCompletionTool` entry (`type` is always the literal
`"function"`). -/
structure ChatCompletionToolOut where
  type : String
  function : RaycastToolFunction
deriving Repr

/-- Embedding of `convertRaycastToolsToOpenAI` (src/util.ts):
filter out non-local declarations; return `undefined` when nothing is
left, otherwise map each declaration to a function tool. -/
def convertRaycastToolsToOpenAI (raycastTools : Option (List RaycastRequestTool)) :
    Option (List ChatCompletionToolOut) :=
  let filteredTools := raycastTools.map (List.filter isLocalTool)
  match filteredTools with
  | none => none
  | some l =>
      if l.length = 0 then none
      else some (l.map fun tool => { type := "function", function := toolFunction tool })

/-! ### Connection lifecycle (src/controllers/api.ts, `cleanup`) -/

/-- Abort/timer state of one in-flight request, together with an
effect counter: `abortCalls` counts how many times
`abortController.abort()` actually ran. -/
structure ConnState where
  aborted : Bool
  abortCalls : Nat
  timerActive : Bool
deriving Repr, DecidableEq

/-- Embedding of the `cleanup` closure: abort the upstream call unless
already aborted, then stop the keep-alive timer (`clearInterval` on an
already-cleared timer is a no-op). -/
def cleanup (s : ConnState) : ConnState :=
  let s' := if s.aborted then s else { s with aborted := true, abortCalls := s.abortCalls + 1 }
  { s' with timerActive := false }

/-- Exit path of one chat request. -/
inductive ExitPath where
  | normalEnd : ExitPath
  | clientDisconnect : ExitPath
  | errorPath : ExitPath
deriving Repr, DecidableEq

/-- Cleanup triggers actually reached on each exit path: the `finally`
block always runs `cleanup`; the response `close` handler runs it again
when the connection closes (normal end after `res.end()`, client
disconnect, connection teardown after an error). -/
def requestLifecycle (exit : ExitPath) (s : ConnState) : ConnState :=
  match exit with
  | .normalEnd => cleanup (cleanup s)
  | .clientDisconnect => cleanup (cleanup s)
  | .errorPath => cleanup (cleanup s)

/-! ### Inbound messages and their translation
(src/util.ts, `OllamaChatMessage`, `convertOllamaMessagesToOpenAI`) -/

/-- Inbound message role (zod enum). -/
inductive ORole where
  | user : ORole
  | assistant : ORole
  | system : ORole
  | tool : ORole
deriving Repr, DecidableEq

/-- One entry of an inbound assistant message's `tool_calls` list: the
payload under its `function` key (name plus structured arguments). -/
structure OllamaToolCallEntry where
  name : String
  arguments : Json
deriving Repr

/-- Inbound chat message (zod `OllamaChatMessage`). -/
structure OllamaChatMessage where
  role : ORole
  images : Option (List String)
  content : String
  tool_calls : Option (List OllamaToolCallEntry)
deriving Repr

/-- Outbound assistant tool-call entry: `{id, type: 'function', name,
JSON-serialized arguments}`. -/
structure OutboundToolCall where
  id : String
  type : String
  name : String
  arguments : String
deriving Repr, DecidableEq

/-- One part of an outbound multi-part user message. -/
inductive ContentPart where
  | text (text : String) : ContentPart
  | imageUrl (url : String) : ContentPart
deriving Repr, DecidableEq

/-- Outbound `ChatCompletionMessageParam`, restricted to the four shapes
the converter produces. -/
inductive ChatCompletionMessageParam where
  | assistantWithToolCalls (content : String) (tool_calls : List OutboundToolCall) :
      ChatCompletionMessageParam
  | toolMessage (content : String) (tool_call_id : String) : ChatCompletionMessageParam
  | userWithImages (parts : List ContentPart) : ChatCompletionMessageParam
  | plain (role : ORole) (content : String) : ChatCompletionMessageParam
deriving Repr, DecidableEq

/-- Minting of the outbound tool-call entries of one assistant message:
`makeToolCallId()` is called once per entry, in order, so entry `k`
receives the id `fresh (ctr + k)`. -/
def mintOutCalls (fresh : Nat → String) (ctr : Nat) :
    List OllamaToolCallEntry → List OutboundToolCall
  | [] => []
  | tc :: rest =>
      { id := fresh ctr, type := "function", name := tc.name,
        arguments := jsonStringify tc.arguments } :: mintOutCalls fresh (ctr + 1) rest

/-- Translation of one inbound message given the current id queue
(`toolCallIds`) and the count of ids minted so far; returns the outbound
message and the updated queue/count. The four cases are checked in the
source's order: assistant with (truthy, possibly empty) `tool_calls`
first, then `tool` role, then user with a nonempty image list, then
passthrough. -/
def convertStep (fresh : Nat → String) (msg : OllamaChatMessage)
    (toolCallIds : List String) (ctr : Nat) :
    ChatCompletionMessageParam × List String × Nat :=
  match msg.role, msg.tool_calls with
  | ORole.assistant, some tcs =>
      -- previous ids are cleared (`toolCallIds.length = 0`), then one
      -- fresh id per call is pushed
      let outCalls := mintOutCalls fresh ctr tcs
      (ChatCompletionMessageParam.assistantWithToolCalls msg.content outCalls,
        outCalls.map OutboundToolCall.id, ctr + tcs.length)
  | ORole.tool, _ =>
      -- `toolCallIds.shift() || makeToolCallId()`: pop the head; a
      -- missing (or falsy empty) head mints a fresh id instead
      (match toolCallIds with
       | [] => (ChatCompletionMessageParam.toolMessage msg.content (fresh ctr), [], ctr + 1)
       | h :: t =>
           if h = "" then
             (ChatCompletionMessageParam.toolMessage msg.content (fresh ctr), t, ctr + 1)
           else (ChatCompletionMessageParam.toolMessage msg.content h, t, ctr))
  | _, _ =>
      match msg.role, msg.images with
      | ORole.user, some imgs =>
          if imgs.length > 0 then
            (ChatCompletionMessageParam.userWithImages
              (ContentPart.text msg.content ::
                imgs.map fun img => ContentPart.imageUrl ("data:image/jpeg;base64," ++ img)),
              toolCallIds, ctr)
          else (ChatCompletionMessageParam.plain msg.role msg.content, toolCallIds, ctr)
      | _, _ => (ChatCompletionMessageParam.plain msg.role msg.content, toolCallIds, ctr)

/-- Left-to-right traversal of the message list threading the shared
`toolCallIds` queue and the mint count through `convertStep`. -/
def convertGo (fresh : Nat → String) :
    List OllamaChatMessage → List String → Nat → List ChatCompletionMessageParam
  | [], _, _ => []
  | msg :: rest, toolCallIds, ctr =>
      let step := convertStep fresh msg toolCallIds ctr
      step.1 :: convertGo fresh rest step.2.1 step.2.2

/-- Embedding of `convertOllamaMessagesToOpenAI`: the queue starts empty
and no ids have been minted yet. -/
def convertOllamaMessagesToOpenAI (fresh : Nat → String)
    (messages : List OllamaChatMessage) : List ChatCompletionMessageParam :=
  convertGo fresh messages [] 0

/-! ### Tool-call accumulator (src/controllers/api.ts, `finalToolCalls`) -/

/-- Function payload of one upstream tool-call fragment; both fields may
be absent in a given fragment. -/
structure DeltaToolCallFunction where
  name : Option String
  arguments : Option String
deriving Repr, DecidableEq

/-- One upstream tool-call fragment (`delta.tool_calls[k]`), keyed by
its positional `index`. -/
structure DeltaToolCall where
  index : Nat
  id : Option String
  type : Option String
  function : Option DeltaToolCallFunction
deriving Repr, DecidableEq

/-- Function payload of an accumulated record; the record is created
with both strings present (defaulted to `''`). -/
structure AccToolCallFunction where
  name : String
  arguments : String
deriving Repr, DecidableEq

/-- Accumulated tool-call record stored in the `finalToolCalls` map. -/
structure AccToolCall where
  index : Nat
  id : Option String
  type : Option String
  function : AccToolCallFunction
deriving Repr, DecidableEq

/-- Evaluation of `toolCall.function?.name || ''` (absent and empty both
yield `''`). -/
def fragName (tc : DeltaToolCall) : String :=
  (tc.function.bind DeltaToolCallFunction.name).getD ""

/-- Evaluation of `toolCall.function?.arguments || ''`. -/
def fragArgs (tc : DeltaToolCall) : String :=
  (tc.function.bind DeltaToolCallFunction.arguments).getD ""

/-- In-place update of the value stored at key `i` of an association
list (a JavaScript object field assignment keeps the key's position). -/
def assocUpdate : List (Nat × AccToolCall) → Nat → (AccToolCall → AccToolCall) →
    List (Nat × AccToolCall)
  | [], _, _ => []
  | (k, v) :: rest, i, f =>
      if k = i then (k, f v) :: rest else (k, v) :: assocUpdate rest i f

/-- Ingestion of one fragment into the `finalToolCalls` map: the first
sighting of an index creates the record from that fragment's id, type
and (defaulted) name/arguments; every later sighting only appends the
fragment's argument text. -/
def ingestToolCall (store : List (Nat × AccToolCall)) (tc : DeltaToolCall) :
    List (Nat × AccToolCall) :=
  match store.lookup tc.index with
  | none =>
      store ++ [(tc.index,
        { index := tc.index, id := tc.id, type := tc.type,
          function := { name := fragName tc, arguments := fragArgs tc } })]
  | some _ =>
      assocUpdate store tc.index fun acc =>
        { acc with function :=
            { acc.function with arguments := acc.function.arguments ++ fragArgs tc } }

/-- Accumulation of a whole fragment sequence in arrival order, starting
from the empty map. -/
def ingestAll (frags : List DeltaToolCall) : List (Nat × AccToolCall) :=
  frags.foldl ingestToolCall []

/-! ### Outbound frames (src/util.ts, `makeOllamaChunk`) -/

/-- Finalized tool call carried by the terminal frame. -/
structure OllamaToolCallOut where
  name : String
  arguments : Json
deriving Repr

/-- Message payload of an outbound frame. -/
structure OllamaMessageOut where
  role : String
  content : String
  tool_calls : Option (List OllamaToolCallOut)
deriving Repr

/-- Outbound frame (`OllamaChunkResponse`); the wall-clock `created_at`
field is not modelled. -/
structure OllamaChunkResponse where
  model : String
  message : OllamaMessageOut
  done : Bool
  done_reason : Option String
deriving Repr

/-- Enumeration order of `for (const key in toolCalls)` over a record
with integer-like keys: ascending numeric order. -/
def sortByIndex (store : List (Nat × AccToolCall)) : List (Nat × AccToolCall) :=
  List.insertionSort (fun a b => a.1 ≤ b.1) store

instance : IsTotal (Nat × AccToolCall) (fun a b => a.1 ≤ b.1) :=
  ⟨fun a b => Nat.le_total a.1 b.1⟩

instance : IsTrans (Nat × AccToolCall) (fun a b => a.1 ≤ b.1) :=
  ⟨fun _ _ _ hab hbc => le_trans hab hbc⟩

/-- Evaluation of `tc.function.arguments || '\x7b\x7d'`: an empty
accumulated argument text is defaulted to the empty-object text. -/
def defaultedArgs (tc : AccToolCall) : String :=
  if tc.function.arguments = "" then "\x7b\x7d" else tc.function.arguments

/-- Body of the finalization loop of `makeOllamaChunk` for one record:
skip it when its function name is empty (`continue`), otherwise parse
the (defaulted) argument text, skipping the record when parsing throws
(`catch \x7b continue \x7d`). -/
def finalizeEntry (parse : String → Option Json) (p : Nat × AccToolCall) :
    Option (Nat × OllamaToolCallOut) :=
  if p.2.function.name = "" then none
  else
    (parse (defaultedArgs p.2)).map fun parsedArgs =>
      (p.1, { name := p.2.function.name, arguments := parsedArgs })

/-- Finalization loop of `makeOllamaChunk`, keeping the source index of
each surviving entry. -/
def makeToolCallsList (parse : String → Option Json) (store : List (Nat × AccToolCall)) :
    List (Nat × OllamaToolCallOut) :=
  (sortByIndex store).filterMap (finalizeEntry parse)

/-- Embedding of `makeOllamaChunk`: build the outbound frame; the
`tool_calls` field is present only when at least one accumulated record
survives finalization. -/
def makeOllamaChunk (parse : String → Option Json) (model : String) (content : String)
    (done : Bool) (done_reason : Option String)
    (toolCalls : Option (List (Nat × AccToolCall))) : OllamaChunkResponse :=
  let finalToolCalls : List OllamaToolCallOut :=
    match toolCalls with
    | some store => (makeToolCallsList parse store).map Prod.snd
    | none => []
  { model := model,
    message :=
      { role := "assistant", content := content,
        tool_calls := if finalToolCalls.length > 0 then some finalToolCalls else none },
    done := done,
    done_reason := done_reason }

/-! ### The streaming loop (src/controllers/api.ts, `chatCompletion`) -/

/-- One upstream delta (`chunk.choices[0].delta`). -/
structure Delta where
  reasoning_content : Option String
  content : Option String
  tool_calls : Option (List DeltaToolCall)
deriving Repr, DecidableEq

/-- One upstream chunk: a possibly absent delta plus the chunk-level
finish reason (`chunk.choices[0].finish_reason`); a chunk without a
delta is skipped entirely, finish reason included. Usage payloads are
only logged and are not modelled. -/
structure Chunk where
  delta : Option Delta
  finish_reason : Option String
deriving Repr, DecidableEq

/-- JavaScript truthiness of an optional string: absent and `''` are
falsy. -/
def truthy : Option String → Bool
  | none => false
  | some s => s != ""

/-- Mapping of the upstream finish reason (lines 198–202 of the
controller): `'stop'` and `'tool_calls'` pass through, anything else
becomes `'stop'`. -/
def mapFinishReason (reason : String) : String :=
  if reason = "stop" ∨ reason = "tool_calls" then reason else "stop"

/-- Mutable state of the streaming loop. -/
structure LoopState where
  finalToolCalls : List (Nat × AccToolCall)
  finish_reason : Option String
  reasoning : Bool
deriving Repr

/-- The `match`/`with` cascade over `{reasoning_content, content,
reasoning}`: returns the next `reasoning` flag, the frames written
inside the matched branch, and `outputContent`. Branches are tried in
the source's order; `otherwise` falls back to `content ?? ''`. -/
def stepMatch (parse : String → Option Json) (model : String) (r : Bool)
    (rc c : Option String) : Bool × List OllamaChunkResponse × String :=
  if !r && truthy rc then
    (true, [makeOllamaChunk parse model "<think>" false none none], rc.getD "")
  else if r && truthy rc then
    (true, [], rc.getD "")
  else if r && truthy c then
    (false,
      (match rc with
       | some s => if s ≠ "" then [makeOllamaChunk parse model s false none none] else []
       | none => []) ++
        [makeOllamaChunk parse model "</think>" false none none],
      c.getD "")
  else (r, [], c.getD "")

/-- Processing of one upstream chunk: run the sequencer match, write the
content frame when `outputContent` is nonempty, ingest the delta's
tool-call fragments, and record the mapped finish reason. A chunk with
no delta is skipped. -/
def stepChunk (parse : String → Option Json) (model : String) (s : LoopState) (ck : Chunk) :
    LoopState × List OllamaChunkResponse :=
  match ck.delta with
  | none => (s, [])
  | some d =>
      let m := stepMatch parse model s.reasoning d.reasoning_content d.content
      let contentFrames :=
        if m.2.2 ≠ "" then [makeOllamaChunk parse model m.2.2 false none none] else []
      let store :=
        match d.tool_calls with
        | some tcs => tcs.foldl ingestToolCall s.finalToolCalls
        | none => s.finalToolCalls
      let fr :=
        match ck.finish_reason with
        | some reason => some (mapFinishReason reason)
        | none => s.finish_reason
      ({ finalToolCalls := store, finish_reason := fr, reasoning := m.1 },
        m.2.1 ++ contentFrames)

/-- The `for await` loop over the upstream stream: thread the state
through `stepChunk` and concatenate the written frames. -/
def streamLoop (parse : String → Option Json) (model : String) :
    LoopState → List Chunk → LoopState × List OllamaChunkResponse
  | s, [] => (s, [])
  | s, ck :: cks =>
      let st := stepChunk parse model s ck
      let rest := streamLoop parse model st.1 cks
      (rest.1, st.2 ++ rest.2)

/-- Initial loop state: empty accumulator, no finish reason, not in
reasoning mode. -/
def initLoopState : LoopState :=
  { finalToolCalls := [], finish_reason := none, reasoning := false }

/-- Frames written for one upstream stream that ends normally: the loop
frames followed by the single terminal frame
`makeOllamaChunk(model, '', true, finish_reason, finalToolCalls)`,
after which the response is closed. -/
def processStream (parse : String → Option Json) (model : String) (chunks : List Chunk) :
    List OllamaChunkResponse :=
  let r := streamLoop parse model initLoopState chunks
  r.2 ++ [makeOllamaChunk parse model "" true r.1.finish_reason (some r.1.finalToolCalls)]

/-! ### Model resolution (src/data/models.ts) -/

/-- Static model configuration. The optional floating-point sampling
fields (`temperature`, `topP`), `max_tokens` and the free-form `extra`
passthrough are not modelled: no claim mentions them and they do not
affect resolution. -/
structure ModelConfig where
  name : String
  id : String
  contextLength : Nat
  capabilities : List String
  baseUrl : Option String
  apiKey : Option String
deriving Repr, DecidableEq

/-- One entry of the local Ollama `/api/tags` answer; only `name` is
read by the mapping. -/
structure OllamaTagModel where
  name : String
deriving Repr, DecidableEq

/-- Outcome of the `fetch('http://localhost:11434/api/tags')` call. -/
inductive FetchOutcome where
  | fetchError : FetchOutcome
  | notOk (statusText : String) : FetchOutcome
  | okNoModels : FetchOutcome
  | okModels (models : List OllamaTagModel) : FetchOutcome
deriving Repr, DecidableEq

/-- Embedding of `fetchLocalOllamaModels`: a thrown fetch error, a
non-ok response and an absent `models` field all contribute the empty
list; a successful answer is mapped to local `ModelConfig`s. -/
def fetchLocalOllamaModels : FetchOutcome → List ModelConfig
  | .fetchError => []
  | .notOk _ => []
  | .okNoModels => []
  | .okModels ms =>
      ms.map fun m =>
        { name := m.name ++ " [Local]", id := m.name, contextLength := 4096,
          capabilities := ["tools"], baseUrl := some "http://localhost:11434/v1",
          apiKey := some "ollama" }

/-- Embedding of `findModelConfig`: first exact match on the display
name. -/
def findModelConfig (models : List ModelConfig) (modelName : String) : Option ModelConfig :=
  models.find? fun config => config.name == modelName

/-- Error thrown before the streaming response is opened. -/
structure HttpError where
  status : Nat
  message : String
deriving Repr, DecidableEq

/-- Pre-stream phase plus streaming phase of the `chatCompletion`
handler: merge static and discovered models, resolve the requested
model (a miss throws a 400 before any frame is written), translate
messages and tools, then relay the upstream stream. The outbound
request does not influence the modelled frame sequence because the
upstream chunks are a parameter. -/
def chatCompletion (parse : String → Option Json) (fresh : Nat → String)
    (models : List ModelConfig) (discovery : FetchOutcome) (requestedModel : String)
    (messages : List OllamaChatMessage) (tools : List RaycastRequestTool)
    (chunks : List Chunk) : Except HttpError (List OllamaChunkResponse) :=
  let localModels := fetchLocalOllamaModels discovery
  let allModels := models ++ localModels
  match findModelConfig allModels requestedModel with
  | none => .error { status := 400, message := "Model " ++ requestedModel ++ " not found" }
  | some _modelConfig =>
      let _openaiMessages := convertOllamaMessagesToOpenAI fresh messages
      let _openaiTools := convertRaycastToolsToOpenAI (some (tools.map parseRaycastTool))
      .ok (processStream parse requestedModel chunks)

/-! ## Specification-side measures and concrete fixtures -/

/-- Finish reasons actually supplied by the stream: the chunk-level
reason is read only when the chunk carries a delta. -/
def suppliedReasons (chunks : List Chunk) : List String :=
  chunks.filterMap fun ck =>
    match ck.delta with
    | none => none
    | some _ => ck.finish_reason

/-- Concatenation of a list of strings in order. -/
def strConcat : List String → String
  | [] => ""
  | s :: rest => s ++ strConcat rest

/-- Expected accumulator record at index `i` after a fragment sequence:
identity fields fixed by the first fragment carrying that index, and
argument text the concatenation of the argument texts of all its
fragments in arrival order. -/
def expectedToolCall (i : Nat) (frags : List DeltaToolCall) : Option AccToolCall :=
  (frags.find? fun f => f.index == i).map fun f0 =>
    { index := f0.index, id := f0.id, type := f0.type,
      function :=
        { name := fragName f0,
          arguments := strConcat ((frags.filter fun f => f.index == i).map fragArgs) } }

/-- Tool-call fragments carried by one chunk, in arrival order. -/
def chunkFrags (ck : Chunk) : List DeltaToolCall :=
  match ck.delta with
  | none => []
  | some d => d.tool_calls.getD []

/-- A concrete parse function for witnesses that never needs parsing. -/
def wParse : String → Option Json := fun _ => none

/-- A concrete id supply for witnesses. -/
def wFresh : Nat → String := fun _ => "cid"

/-- A concrete static model configuration for witnesses. -/
def cfgStatic : ModelConfig :=
  { name := "alpha", id := "openai/alpha", contextLength := 8192,
    capabilities := ["tools"], baseUrl := none, apiKey := none }

/-- A concrete upstream chunk that supplies the finish reason
`"length"`. -/
def wChunkLength : Chunk :=
  { delta := some { reasoning_content := none, content := some "hi", tool_calls := none },
    finish_reason := some "length" }

/-- Next sequencer state for one delta, derived from the match cascade:
the same branch conditions as `stepMatch`, state only. -/
def seqNext (r : Bool) (rc c : Option String) : Bool :=
  if !r && truthy rc then true
  else if r && truthy rc then true
  else if r && truthy c then false
  else r

/-- Next sequencer state for one chunk (a chunk without a delta is
skipped). -/
def chunkNext (r : Bool) (ck : Chunk) : Bool :=
  match ck.delta with
  | none => r
  | some d => seqNext r d.reasoning_content d.content

/-- Number of Idle→Reasoning transitions of the sequencer over a chunk
sequence started in state `r`. -/
def opensCount : Bool → List Chunk → Nat
  | _, [] => 0
  | r, ck :: cks =>
      (if r = false ∧ chunkNext r ck = true then 1 else 0) + opensCount (chunkNext r ck) cks

/-- Number of Reasoning→Idle transitions of the sequencer. -/
def closesCount : Bool → List Chunk → Nat
  | _, [] => 0
  | r, ck :: cks =>
      (if r = true ∧ chunkNext r ck = false then 1 else 0) + closesCount (chunkNext r ck) cks

/-- Final sequencer state after a chunk sequence. -/
def seqFinal : Bool → List Chunk → Bool
  | r, [] => r
  | r, ck :: cks => seqFinal (chunkNext r ck) cks

/-- Opening delimiter frame test. -/
def isOpenFrame (f : OllamaChunkResponse) : Bool :=
  f.message.content == "<think>"

/-- Closing delimiter frame test. -/
def isCloseFrame (f : OllamaChunkResponse) : Bool :=
  f.message.content == "</think>"

/-- A chunk whose delta texts are never the delimiter strings
themselves, so that delimiter frames are identifiable by content. -/
def chunkDelimFree (ck : Chunk) : Bool :=
  match ck.delta with
  | none => true
  | some d =>
      d.reasoning_content != some "<think>" && d.reasoning_content != some "</think>" &&
        d.content != some "<think>" && d.content != some "</think>"

/-- A concrete chunk carrying reasoning text. -/
def wChunkReason : Chunk :=
  { delta := some { reasoning_content := some "th", content := none, tool_calls := none },
    finish_reason := none }

/-- A concrete chunk carrying answer text. -/
def wChunkAnswer : Chunk :=
  { delta := some { reasoning_content := none, content := some "ans", tool_calls := none },
    finish_reason := none }

/-- A concrete parse function agreeing with `JSON.parse` on the two
strings of interest: the empty string fails to parse, the empty-object
text parses. -/
def cxParse : String → Option Json :=
  fun s => if s = "\x7b\x7d" then some (Json.obj []) else none

/-- A concrete accumulator store containing one record whose function
name is set and whose accumulated argument text is empty. -/
def cxStore : List (Nat × AccToolCall) :=
  [(0, { index := 0, id := some "call_1", type := some "function",
         function := { name := "get_weather", arguments := "" } })]

/-- A concrete first fragment of index 1 carrying no function name. -/
def wFragNoName : DeltaToolCall :=
  { index := 1, id := some "c2", type := some "function",
    function := some { name := none, arguments := some "x" } }

/-- A concrete later fragment of index 1 that does carry a function
name. -/
def wFragNamed : DeltaToolCall :=
  { index := 1, id := none, type := none,
    function := some { name := some "g", arguments := some "y" } }

/-! ## Helper lemmas -/

theorem filter_parse_comm (tools : List RaycastRequestTool) :
    (tools.map parseRaycastTool).filter isLocalTool
      = (tools.filter isLocalTool).map parseRaycastTool := by
  induction tools with
  | nil => rfl
  | cons t ts ih => cases t <;> simp [parseRaycastTool, isLocalTool, ih]

theorem stepMatch_frames_done (parse : String → Option Json) (model : String) (r : Bool)
    (rc c : Option String) : ∀ f ∈ (stepMatch parse model r rc c).2.1, f.done = false := by
  intro f hf
  unfold stepMatch at hf
  split_ifs at hf
  · simp at hf
    rw [hf]
    rfl
  · simp at hf
  · rcases rc with _ | s
    · simp at hf
      rw [hf]
      rfl
    · by_cases hs : s = ""
      · simp [hs] at hf
        rw [hf]
        rfl
      · simp [hs] at hf
        rcases hf with hf | hf <;> (rw [hf]; rfl)
  · simp at hf

theorem stepChunk_frames_done (parse : String → Option Json) (model : String) (s : LoopState)
    (ck : Chunk) : ∀ f ∈ (stepChunk parse model s ck).2, f.done = false := by
  intro f hf
  rcases hck : ck.delta with _ | d
  · simp [stepChunk, hck] at hf
  · simp only [stepChunk, hck] at hf
    rw [List.mem_append] at hf
    rcases hf with hf | hf
    · exact stepMatch_frames_done parse model s.reasoning d.reasoning_content d.content f hf
    · by_cases h : (stepMatch parse model s.reasoning d.reasoning_content d.content).2.2 = ""
      · simp [h] at hf
      · simp [h] at hf
        rw [hf]
        rfl

theorem streamLoop_frames_done (parse : String → Option Json) (model : String) :
    ∀ (cks : List Chunk) (s : LoopState) (f : OllamaChunkResponse),
      f ∈ (streamLoop parse model s cks).2 → f.done = false := by
  intro cks
  induction cks with
  | nil =>
      intro s f hf
      simp [streamLoop] at hf
  | cons ck cks ih =>
      intro s f hf
      simp only [streamLoop] at hf
      rw [List.mem_append] at hf
      rcases hf with hf | hf
      · exact stepChunk_frames_done parse model s ck f hf
      · exact ih _ f hf

theorem getLast?_cons_getD (a : α) (l : List α) :
    (a :: l).getLast? = some ((l.getLast?).getD a) := by
  induction l generalizing a with
  | nil => rfl
  | cons b l ih =>
      rw [List.getLast?_cons_cons, ih b]
      rcases hl : l.getLast? with _ | x <;> simp [ih, hl]

theorem streamLoop_finish (parse : String → Option Json) (model : String) :
    ∀ (cks : List Chunk) (s : LoopState),
      (streamLoop parse model s cks).1.finish_reason
        = match (suppliedReasons cks).getLast? with
          | some r => some (mapFinishReason r)
          | none => s.finish_reason := by
  intro cks
  induction cks with
  | nil => intro s; rfl
  | cons ck cks ih =>
      intro s
      have hstep : (streamLoop parse model s (ck :: cks)).1
          = (streamLoop parse model (stepChunk parse model s ck).1 cks).1 := by
        simp [streamLoop]
      rw [hstep, ih]
      rcases hd : ck.delta with _ | d
      · have h1 : suppliedReasons (ck :: cks) = suppliedReasons cks := by
          simp [suppliedReasons, hd]
        have h2 : (stepChunk parse model s ck).1 = s := by
          simp [stepChunk, hd]
        rw [h1, h2]
      · rcases hf : ck.finish_reason with _ | r
        · have h1 : suppliedReasons (ck :: cks) = suppliedReasons cks := by
            simp [suppliedReasons, hd, hf]
          have h2 : (stepChunk parse model s ck).1.finish_reason = s.finish_reason := by
            simp [stepChunk, hd, hf]
          rw [h1, h2]
        · have h1 : suppliedReasons (ck :: cks) = r :: suppliedReasons cks := by
            simp [suppliedReasons, hd, hf]
          have h2 : (stepChunk parse model s ck).1.finish_reason = some (mapFinishReason r) := by
            simp [stepChunk, hd, hf]
          rw [h1, h2, getLast?_cons_getD]
          rcases hl : (suppliedReasons cks).getLast? with _ | r2 <;> simp

theorem strConcat_append (l1 l2 : List String) :
    strConcat (l1 ++ l2) = strConcat l1 ++ strConcat l2 := by
  induction l1 with
  | nil => simp [strConcat]
  | cons s l ih => simp [strConcat, ih, String.append_assoc]

theorem lookup_append (l1 l2 : List (Nat × AccToolCall)) (k : Nat) :
    (l1 ++ l2).lookup k = (l1.lookup k).or (l2.lookup k) := by
  induction l1 with
  | nil => simp [List.lookup]
  | cons p l ih =>
      obtain ⟨a, b⟩ := p
      by_cases h : k = a
      · simp [List.lookup, h]
      · have hb : (k == a) = false := beq_eq_false_iff_ne.mpr h
        simp [List.lookup, hb, ih]

theorem lookup_assocUpdate_self (l : List (Nat × AccToolCall)) (i : Nat)
    (g : AccToolCall → AccToolCall) :
    (assocUpdate l i g).lookup i = (l.lookup i).map g := by
  induction l with
  | nil => simp [assocUpdate, List.lookup]
  | cons p l ih =>
      obtain ⟨a, b⟩ := p
      by_cases h : a = i
      · subst h
        simp [assocUpdate, List.lookup]
      · have hb : (i == a) = false := beq_eq_false_iff_ne.mpr (Ne.symm h)
        simp [assocUpdate, h, List.lookup, hb, ih]

theorem lookup_assocUpdate_ne (l : List (Nat × AccToolCall)) (i j : Nat)
    (g : AccToolCall → AccToolCall) (h : j ≠ i) :
    (assocUpdate l i g).lookup j = l.lookup j := by
  induction l with
  | nil => simp [assocUpdate]
  | cons p l ih =>
      obtain ⟨a, b⟩ := p
      by_cases ha : a = i
      · subst ha
        have hb : (j == a) = false := beq_eq_false_iff_ne.mpr h
        simp [assocUpdate, List.lookup, hb]
      · by_cases hj : j = a
        · subst hj
          simp [assocUpdate, ha, List.lookup]
        · have hb : (j == a) = false := beq_eq_false_iff_ne.mpr hj
          simp [assocUpdate, ha, List.lookup, hb, ih]

theorem ingestAll_lookup (frags : List DeltaToolCall) (i : Nat) :
    (ingestAll frags).lookup i = expectedToolCall i frags := by
  induction frags using List.reverseRecOn with
  | nil => simp [ingestAll, expectedToolCall, List.lookup]
  | append_singleton l f ih =>
      have hfold : ingestAll (l ++ [f]) = ingestToolCall (ingestAll l) f := by
        simp [ingestAll, List.foldl_append]
      rw [hfold]
      by_cases hidx : f.index = i
      · rcases hl : (ingestAll l).lookup f.index with _ | tc
        · -- first sighting of the index
          rw [show ingestToolCall (ingestAll l) f
              = (ingestAll l) ++ [(f.index,
                  { index := f.index, id := f.id, type := f.type,
                    function := { name := fragName f, arguments := fragArgs f } })] from by
            unfold ingestToolCall
            rw [hl]]
          rw [hidx] at hl
          rw [ih] at hl
          have hfind : (l.find? fun g => g.index == i) = none := by
            rcases hf2 : l.find? fun g => g.index == i with _ | x
            · exact hf2
            · rw [expectedToolCall, hf2] at hl
              simp at hl
          have hfilter : (l.filter fun g => g.index == i) = [] := by
            rw [List.filter_eq_nil_iff]
            exact List.find?_eq_none.mp hfind
          rw [lookup_append, ih]
          rw [show expectedToolCall i l = none from by rw [expectedToolCall, hfind]; rfl]
          simp [expectedToolCall, List.find?_append, hfind, List.filter_append, hfilter,
            strConcat, List.lookup, hidx]
        · -- later sighting: append the argument text only
          rw [show ingestToolCall (ingestAll l) f
              = assocUpdate (ingestAll l) f.index fun acc =>
                  { acc with function :=
                      { acc.function with
                        arguments := acc.function.arguments ++ fragArgs f } } from by
            unfold ingestToolCall
            rw [hl]]
          rw [hidx] at hl ⊢
          rw [lookup_assocUpdate_self, ih]
          rw [ih] at hl
          rcases hfind : l.find? fun g => g.index == i with _ | f0
          · rw [expectedToolCall, hfind] at hl
            simp at hl
          · simp [expectedToolCall, hfind, List.find?_append, List.filter_append,
              strConcat_append, strConcat, List.filter, hidx]
      · -- fragment for a different index: the record at i is untouched
        have hfind1 : ([f].find? fun g => g.index == i) = none := by
          simp [List.find?, beq_eq_false_iff_ne.mpr hidx]
        have hfilter1 : ([f].filter fun g => g.index == i) = [] := by
          simp [List.filter, beq_eq_false_iff_ne.mpr hidx]
        have hexp : expectedToolCall i (l ++ [f]) = expectedToolCall i l := by
          simp [expectedToolCall, List.find?_append, List.filter_append, hfind1, hfilter1]
        rw [hexp]
        rcases hl : (ingestAll l).lookup f.index with _ | tc
        · rw [show ingestToolCall (ingestAll l) f
              = (ingestAll l) ++ [(f.index,
                  { index := f.index, id := f.id, type := f.type,
                    function := { name := fragName f, arguments := fragArgs f } })] from by
            unfold ingestToolCall
            rw [hl]]
          rw [lookup_append]
          have hsingle : (([(f.index,
              { index := f.index, id := f.id, type := f.type,
                function := { name := fragName f, arguments := fragArgs f } })] :
              List (Nat × AccToolCall)).lookup i) = none := by
            simp [List.lookup, beq_eq_false_iff_ne.mpr (Ne.symm hidx)]
          rw [hsingle, Option.or_none, ih]
        · rw [show ingestToolCall (ingestAll l) f
              = assocUpdate (ingestAll l) f.index fun acc =>
                  { acc with function :=
                      { acc.function with
                        arguments := acc.function.arguments ++ fragArgs f } } from by
            unfold ingestToolCall
            rw [hl]]
          rw [lookup_assocUpdate_ne _ _ _ _ (fun hc => hidx hc.symm), ih]

theorem stepChunk_store (parse : String → Option Json) (model : String) (s : LoopState)
    (ck : Chunk) :
    (stepChunk parse model s ck).1.finalToolCalls
      = (chunkFrags ck).foldl ingestToolCall s.finalToolCalls := by
  rcases hck : ck.delta with _ | d
  · simp [stepChunk, chunkFrags, hck]
  · rcases htc : d.tool_calls with _ | tcs <;> simp [stepChunk, chunkFrags, hck, htc]

theorem streamLoop_store (parse : String → Option Json) (model : String) :
    ∀ (cks : List Chunk) (s : LoopState),
      (streamLoop parse model s cks).1.finalToolCalls
        = (cks.flatMap chunkFrags).foldl ingestToolCall s.finalToolCalls := by
  intro cks
  induction cks with
  | nil => intro s; rfl
  | cons ck cks ih =>
      intro s
      have hstep : (streamLoop parse model s (ck :: cks)).1
          = (streamLoop parse model (stepChunk parse model s ck).1 cks).1 := by
        simp [streamLoop]
      rw [hstep, ih, List.flatMap_cons, List.foldl_append, stepChunk_store]

theorem sortByIndex_sorted (store : List (Nat × AccToolCall)) :
    (sortByIndex store).Pairwise (fun a b => a.1 ≤ b.1) :=
  List.sorted_insertionSort _ store

theorem mem_sortByIndex (store : List (Nat × AccToolCall)) (p : Nat × AccToolCall) :
    p ∈ sortByIndex store ↔ p ∈ store :=
  (List.perm_insertionSort _ store).mem_iff

theorem finalizeEntry_eq_some (parse : String → Option Json) (p : Nat × AccToolCall)
    (q : Nat × OllamaToolCallOut) (h : finalizeEntry parse p = some q) :
    q.1 = p.1 ∧ p.2.function.name ≠ "" ∧ q.2.name = p.2.function.name
      ∧ parse (defaultedArgs p.2) = some q.2.arguments := by
  unfold finalizeEntry at h
  by_cases hn : p.2.function.name = ""
  · rw [if_pos hn] at h
    exact absurd h (by simp)
  · rw [if_neg hn] at h
    rcases hp : parse (defaultedArgs p.2) with _ | v
    · rw [hp] at h
      simp at h
    · rw [hp] at h
      have hq : (p.1, ({ name := p.2.function.name, arguments := v } : OllamaToolCallOut)) = q :=
        Option.some.inj h
      rw [← hq]
      exact ⟨rfl, hn, rfl, rfl⟩

theorem keys_sorted_aux (parse : String → Option Json) :
    ∀ l : List (Nat × AccToolCall), l.Pairwise (fun a b => a.1 ≤ b.1) →
      ((l.filterMap (finalizeEntry parse)).map Prod.fst).Pairwise (· ≤ ·) := by
  intro l
  induction l with
  | nil => intro _; simp
  | cons p l ih =>
      intro hp
      rw [List.pairwise_cons] at hp
      rw [List.filterMap_cons]
      rcases hq : finalizeEntry parse p with _ | q
      · exact ih hp.2
      · rw [List.map_cons, List.pairwise_cons]
        constructor
        · intro k hk
          rcases List.mem_map.mp hk with ⟨q2, hq2, rfl⟩
          rcases List.mem_filterMap.mp hq2 with ⟨p2, hp2, hfe⟩
          rw [(finalizeEntry_eq_some parse p q hq).1,
            (finalizeEntry_eq_some parse p2 q2 hfe).1]
          exact hp.1 p2 hp2
        · exact ih hp.2

theorem makeToolCallsList_keys_sorted (parse : String → Option Json)
    (store : List (Nat × AccToolCall)) :
    ((makeToolCallsList parse store).map Prod.fst).Pairwise (· ≤ ·) :=
  keys_sorted_aux parse (sortByIndex store) (sortByIndex_sorted store)

theorem assoc_mem_eq_of_nodup :
    ∀ {l : List (Nat × AccToolCall)}, (l.map Prod.fst).Nodup →
      ∀ {k : Nat} {v w : AccToolCall}, (k, v) ∈ l → (k, w) ∈ l → v = w := by
  intro l
  induction l with
  | nil =>
      intro _ k v w hv _
      simp at hv
  | cons p l ih =>
      intro h k v w hv hw
      rw [List.map_cons, List.nodup_cons] at h
      rcases List.mem_cons.mp hv with hv1 | hv2
      · rcases List.mem_cons.mp hw with hw1 | hw2
        · rw [← hv1] at hw1
          exact (Prod.mk.injEq _ _ _ _ ▸ hw1).2.symm
        · exfalso
          apply h.1
          rw [show p.1 = k from by rw [← hv1]]
          exact List.mem_map.mpr ⟨(k, w), hw2, rfl⟩
      · rcases List.mem_cons.mp hw with hw1 | hw2
        · exfalso
          apply h.1
          rw [show p.1 = k from by rw [← hw1]]
          exact List.mem_map.mpr ⟨(k, v), hv2, rfl⟩
        · exact ih h.2 hv2 hw2

theorem lookup_eq_none_iff (l : List (Nat × AccToolCall)) (k : Nat) :
    l.lookup k = none ↔ k ∉ l.map Prod.fst := by
  induction l with
  | nil => simp [List.lookup]
  | cons p l ih =>
      obtain ⟨a, b⟩ := p
      by_cases h : k = a
      · subst h
        simp [List.lookup]
      · have hb : (k == a) = false := beq_eq_false_iff_ne.mpr h
        simp [List.lookup, hb, ih, h]

theorem assocUpdate_keys (l : List (Nat × AccToolCall)) (i : Nat)
    (g : AccToolCall → AccToolCall) :
    (assocUpdate l i g).map Prod.fst = l.map Prod.fst := by
  induction l with
  | nil => rfl
  | cons p l ih =>
      obtain ⟨a, b⟩ := p
      by_cases h : a = i <;> simp [assocUpdate, h, ih]

theorem lookup_of_mem_nodup :
    ∀ {l : List (Nat × AccToolCall)}, (l.map Prod.fst).Nodup →
      ∀ {k : Nat} {v : AccToolCall}, (k, v) ∈ l → l.lookup k = some v := by
  intro l
  induction l with
  | nil =>
      intro _ k v hv
      simp at hv
  | cons p l ih =>
      intro h k v hv
      obtain ⟨a, b⟩ := p
      rw [List.map_cons, List.nodup_cons] at h
      rcases List.mem_cons.mp hv with heq | hv2
      · obtain ⟨rfl, rfl⟩ := Prod.mk.injEq _ _ _ _ ▸ heq
        simp [List.lookup]
      · have hk : k ∈ l.map Prod.fst := List.mem_map.mpr ⟨(k, v), hv2, rfl⟩
        have hne : k ≠ a := fun hc => h.1 (hc ▸ hk)
        have hb : (k == a) = false := beq_eq_false_iff_ne.mpr hne
        simp [List.lookup, hb, ih h.2 hv2]

theorem ingestAll_keys_nodup (frags : List DeltaToolCall) :
    ((ingestAll frags).map Prod.fst).Nodup := by
  induction frags using List.reverseRecOn with
  | nil => simp [ingestAll]
  | append_singleton l f ih =>
      have hfold : ingestAll (l ++ [f]) = ingestToolCall (ingestAll l) f := by
        simp [ingestAll, List.foldl_append]
      rw [hfold]
      rcases hl : (ingestAll l).lookup f.index with _ | tc
      · rw [show ingestToolCall (ingestAll l) f
            = (ingestAll l) ++ [(f.index,
                { index := f.index, id := f.id, type := f.type,
                  function := { name := fragName f, arguments := fragArgs f } })] from by
          unfold ingestToolCall
          rw [hl]]
        have hnotin : f.index ∉ (ingestAll l).map Prod.fst := (lookup_eq_none_iff _ _).mp hl
        rw [List.map_append, List.nodup_append_comm]
        simp [List.nodup_cons, ih, hnotin]
      · rw [show ingestToolCall (ingestAll l) f
            = assocUpdate (ingestAll l) f.index fun acc =>
                { acc with function :=
                    { acc.function with
                      arguments := acc.function.arguments ++ fragArgs f } } from by
          unfold ingestToolCall
          rw [hl]]
        rw [assocUpdate_keys]
        exact ih

theorem stepChunk_counts (parse : String → Option Json) (model : String) (s : LoopState)
    (ck : Chunk) (h : chunkDelimFree ck = true) :
    ((stepChunk parse model s ck).2.countP isOpenFrame
        = if s.reasoning = false ∧ chunkNext s.reasoning ck = true then 1 else 0)
  ∧ ((stepChunk parse model s ck).2.countP isCloseFrame
        = if s.reasoning = true ∧ chunkNext s.reasoning ck = false then 1 else 0)
  ∧ ((stepChunk parse model s ck).1.reasoning = chunkNext s.reasoning ck) := by
  rcases hck : ck.delta with _ | d
  · cases hr : s.reasoning <;>
      simp [stepChunk, chunkNext, hck, hr]
  · obtain ⟨rc, c, tcs⟩ := d
    have hfree : rc ≠ some "<think>" ∧ rc ≠ some "</think>"
        ∧ c ≠ some "<think>" ∧ c ≠ some "</think>" := by
      rw [chunkDelimFree, hck] at h
      simpa [Bool.and_eq_true, bne_iff_ne, and_assoc] using h
    obtain ⟨hf1, hf2, hf3, hf4⟩ := hfree
    rcases rc with _ | src
    · rcases c with _ | sc
      · cases hr : s.reasoning <;>
          simp [stepChunk, hck, stepMatch, seqNext, chunkNext, truthy, hr]
      · have hsc1 : sc ≠ "<think>" := fun hh => hf3 (by rw [hh])
        have hsc2 : sc ≠ "</think>" := fun hh => hf4 (by rw [hh])
        by_cases hsc : sc = ""
        · cases hr : s.reasoning <;>
            simp [stepChunk, hck, stepMatch, seqNext, chunkNext, truthy, hr, hsc]
        · cases hr : s.reasoning <;>
            simp [stepChunk, hck, stepMatch, seqNext, chunkNext, truthy, hr, hsc,
              isOpenFrame, isCloseFrame, makeOllamaChunk, List.countP_cons, hsc1, hsc2]
    · have hsr1 : src ≠ "<think>" := fun hh => hf1 (by rw [hh])
      have hsr2 : src ≠ "</think>" := fun hh => hf2 (by rw [hh])
      rcases c with _ | sc
      · by_cases hsr : src = ""
        · cases hr : s.reasoning <;>
            simp [stepChunk, hck, stepMatch, seqNext, chunkNext, truthy, hr, hsr]
        · cases hr : s.reasoning <;>
            simp [stepChunk, hck, stepMatch, seqNext, chunkNext, truthy, hr, hsr,
              isOpenFrame, isCloseFrame, makeOllamaChunk, List.countP_cons, hsr1, hsr2]
      · have hsc1 : sc ≠ "<think>" := fun hh => hf3 (by rw [hh])
        have hsc2 : sc ≠ "</think>" := fun hh => hf4 (by rw [hh])
        by_cases hsr : src = "" <;> by_cases hsc : sc = "" <;>
          cases hr : s.reasoning <;>
            simp [stepChunk, hck, stepMatch, seqNext, chunkNext, truthy, hr, hsr, hsc,
              isOpenFrame, isCloseFrame, makeOllamaChunk, List.countP_cons, hsr1, hsr2,
              hsc1, hsc2]

theorem streamLoop_counts (parse : String → Option Json) (model : String) :
    ∀ (cks : List Chunk) (s : LoopState), (∀ ck ∈ cks, chunkDelimFree ck = true) →
      ((streamLoop parse model s cks).2.countP isOpenFrame = opensCount s.reasoning cks)
    ∧ ((streamLoop parse model s cks).2.countP isCloseFrame = closesCount s.reasoning cks)
    ∧ ((streamLoop parse model s cks).1.reasoning = seqFinal s.reasoning cks) := by
  intro cks
  induction cks with
  | nil =>
      intro s _
      exact ⟨rfl, rfl, rfl⟩
  | cons ck cks ih =>
      intro s h
      have hck := h ck (List.mem_cons_self ck cks)
      have hrest : ∀ x ∈ cks, chunkDelimFree x = true :=
        fun x hx => h x (List.mem_cons_of_mem ck hx)
      obtain ⟨ho, hc, hr⟩ := stepChunk_counts parse model s ck hck
      obtain ⟨iho, ihc, ihr⟩ := ih (stepChunk parse model s ck).1 hrest
      rw [hr] at ihr
      refine ⟨?_, ?_, ?_⟩
      · show ((stepChunk parse model s ck).2
            ++ (streamLoop parse model (stepChunk parse model s ck).1 cks).2).countP isOpenFrame
          = opensCount s.reasoning (ck :: cks)
        rw [List.countP_append, ho, iho, hr, opensCount]
      · show ((stepChunk parse model s ck).2
            ++ (streamLoop parse model (stepChunk parse model s ck).1 cks).2).countP isCloseFrame
          = closesCount s.reasoning (ck :: cks)
        rw [List.countP_append, hc, ihc, hr, closesCount]
      · show (streamLoop parse model (stepChunk parse model s ck).1 cks).1.reasoning
          = seqFinal s.reasoning (ck :: cks)
        rw [ihr, seqFinal]

theorem opens_closes_balance :
    ∀ (cks : List Chunk) (r : Bool),
      opensCount r cks + (if r = true then 1 else 0)
        = closesCount r cks + (if seqFinal r cks = true then 1 else 0) := by
  intro cks
  induction cks with
  | nil =>
      intro r
      cases r <;> simp [opensCount, closesCount, seqFinal]
  | cons ck cks ih =>
      intro r
      have hbal := ih (chunkNext r ck)
      rw [opensCount, closesCount, seqFinal]
      cases hn : chunkNext r ck
      · rw [hn] at hbal
        cases r
        · simp at hbal ⊢
          omega
        · simp at hbal ⊢
          omega
      · rw [hn] at hbal
        cases r
        · simp at hbal ⊢
          omega
        · simp at hbal ⊢
          omega

/-! ## Claim theorems -/

/-- C1: for every upstream stream that ends normally, the emitted frame
sequence consists of content frames with `done = false` followed by
exactly one terminal frame with `done = true`, which is the last frame
written before the response is closed. -/
theorem claim_C1_terminal_frame (parse : String → Option Json) (model : String)
    (chunks : List Chunk) :
    (processStream parse model chunks).map OllamaChunkResponse.done
      = List.replicate ((processStream parse model chunks).length - 1) false ++ [true] := by
  unfold processStream
  have hbody : ((streamLoop parse model initLoopState chunks).2.map OllamaChunkResponse.done)
      = List.replicate
          ((streamLoop parse model initLoopState chunks).2.map OllamaChunkResponse.done).length
          false := by
    apply List.eq_replicate_of_mem
    intro b hb
    rcases List.mem_map.mp hb with ⟨f, hf, rfl⟩
    exact streamLoop_frames_done parse model chunks initLoopState f hf
  rw [List.map_append, hbody]
  simp [List.length_map, makeOllamaChunk]

/-- C2: for every stream and every tool-call index, the accumulator's
record carries the id, type and (defaulted) name of the first fragment
seen for that index, its argument text is the concatenation of all that
index's fragment texts in arrival order, and the streaming loop's final
accumulator is exactly the ingestion of the stream's fragments in
arrival order. -/
theorem claim_C2_tool_call_accumulation (frags : List DeltaToolCall) (i : Nat)
    (parse : String → Option Json) (model : String) (chunks : List Chunk) :
    ((ingestAll frags).lookup i = expectedToolCall i frags)
  ∧ ((streamLoop parse model initLoopState chunks).1.finalToolCalls
      = ingestAll (chunks.flatMap chunkFrags)) :=
  ⟨ingestAll_lookup frags i, by
    rw [streamLoop_store parse model chunks initLoopState]
    rfl⟩

/-- Counterexample to C3 as stated: a record whose accumulated argument
text is the empty string — which does not parse as JSON
(`cxParse "" = none`, as for `JSON.parse('')`) — is nevertheless kept
in the finalized list, with empty-object arguments, because the source
defaults an empty argument text to `'\x7b\x7d'` before parsing. -/
theorem claim_C3_counterexample :
    cxParse "" = none
  ∧ (0, ({ index := 0, id := some "call_1", type := some "function",
           function := { name := "get_weather", arguments := "" } } : AccToolCall)) ∈ cxStore
  ∧ makeToolCallsList cxParse cxStore
      = [(0, { name := "get_weather", arguments := Json.obj [] })] :=
  ⟨rfl, by simp [cxStore], rfl⟩

/-- C3 (amended): finalization visits accumulated records in ascending
index order; records with an empty function name are omitted; a record
with an empty accumulated argument text has its text defaulted to
`'\x7b\x7d'` before parsing; records whose (defaulted) text fails to
parse are omitted without raising an error; surviving records carry the
parsed arguments; and the terminal frame's `tool_calls` field is absent
(`none`) rather than an empty list when nothing survives. -/
theorem claim_C3_finalization (parse : String → Option Json) (model content : String)
    (done : Bool) (dr : Option String) (store : List (Nat × AccToolCall))
    (hnd : (store.map Prod.fst).Nodup) :
    (((makeToolCallsList parse store).map Prod.fst).Pairwise (· ≤ ·))
  ∧ (∀ q ∈ makeToolCallsList parse store, ∃ tc, (q.1, tc) ∈ store ∧ tc.function.name ≠ ""
      ∧ parse (defaultedArgs tc) = some q.2.arguments ∧ q.2.name = tc.function.name)
  ∧ (∀ (i : Nat) (tc : AccToolCall), (i, tc) ∈ store →
      (tc.function.name = "" ∨ parse (defaultedArgs tc) = none) →
      ∀ q ∈ makeToolCallsList parse store, q.1 ≠ i)
  ∧ ((makeOllamaChunk parse model content done dr (some store)).message.tool_calls
      = if (makeToolCallsList parse store).isEmpty then none
        else some ((makeToolCallsList parse store).map Prod.snd)) := by
  refine ⟨makeToolCallsList_keys_sorted parse store, ?_, ?_, ?_⟩
  · intro q hq
    rcases List.mem_filterMap.mp hq with ⟨p, hp, hfe⟩
    have hmem : p ∈ store := (mem_sortByIndex store p).mp hp
    obtain ⟨h1, h2, h3, h4⟩ := finalizeEntry_eq_some parse p q hfe
    refine ⟨p.2, ?_, h2, h4, h3⟩
    rw [h1]
    exact hmem
  · intro i tc htc hbad q hq hqi
    rcases List.mem_filterMap.mp hq with ⟨p, hp, hfe⟩
    obtain ⟨h1, h2, _, h4⟩ := finalizeEntry_eq_some parse p q hfe
    have hmem : p ∈ store := (mem_sortByIndex store p).mp hp
    have hpp : (i, p.2) ∈ store := by
      rw [← hqi, h1]
      exact hmem
    have heq : p.2 = tc := assoc_mem_eq_of_nodup hnd hpp htc
    rcases hbad with hbad | hbad
    · rw [heq] at h2
      exact h2 hbad
    · rw [heq, hbad] at h4
      simp at h4
  · rcases hml : makeToolCallsList parse store with _ | ⟨q, rest⟩ <;>
      simp [makeOllamaChunk, hml]

/-- Witness for the amended C3 at a concrete input: the store of the
counterexample has distinct keys, and its finalized key list is sorted
ascending. -/
theorem claim_C3_finalization_witness :
    ((cxStore.map Prod.fst).Nodup)
  ∧ (((makeToolCallsList cxParse cxStore).map Prod.fst).Pairwise (· ≤ ·)) :=
  ⟨by simp [cxStore],
    (claim_C3_finalization cxParse "m" "" true none cxStore (by simp [cxStore])).1⟩

/-- C10: when the first fragment seen for an index carries no function
name, the accumulated record keeps the empty name forever — later named
fragments for the same index do not revive it — and the finalized list
contains no entry for that index. -/
theorem claim_C10_nameless_first_fragment (parse : String → Option Json)
    (frags : List DeltaToolCall) (i : Nat) (f0 : DeltaToolCall)
    (h1 : frags.find? (fun f => f.index == i) = some f0)
    (h2 : fragName f0 = "") :
    (((ingestAll frags).lookup i).map fun tc => tc.function.name) = some ""
  ∧ ∀ q ∈ makeToolCallsList parse (ingestAll frags), q.1 ≠ i := by
  have hlook := ingestAll_lookup frags i
  rw [expectedToolCall, h1] at hlook
  constructor
  · rw [hlook]
    simp [h2]
  · intro q hq hqi
    rcases List.mem_filterMap.mp hq with ⟨p, hp, hfe⟩
    obtain ⟨hk, hn, _, _⟩ := finalizeEntry_eq_some parse p q hfe
    have hmem : p ∈ ingestAll frags := (mem_sortByIndex _ p).mp hp
    have hpp : (i, p.2) ∈ ingestAll frags := by
      rw [← hqi, hk]
      exact hmem
    have hlv := lookup_of_mem_nodup (ingestAll_keys_nodup frags) hpp
    rw [hlook] at hlv
    simp only [Option.map_some'] at hlv
    rw [← Option.some.inj hlv] at hn
    simp [h2] at hn

/-- Witness for C10 at a concrete input: two fragments for index 1, the
first without a name, the second named `"g"`; the index still yields no
finalized entry. -/
theorem claim_C10_nameless_first_fragment_witness :
    ((([wFragNoName, wFragNamed].find? fun f => f.index == 1) = some wFragNoName
        ∧ fragName wFragNoName = "")
  ∧ ((((ingestAll [wFragNoName, wFragNamed]).lookup 1).map fun tc => tc.function.name) = some ""
  ∧ ∀ q ∈ makeToolCallsList wParse (ingestAll [wFragNoName, wFragNamed]), q.1 ≠ 1)) :=
  ⟨⟨rfl, rfl⟩,
    claim_C10_nameless_first_fragment wParse [wFragNoName, wFragNamed] 1 wFragNoName rfl rfl⟩

/-- C4: over any delta sequence whose texts do not collide with the
delimiter strings, the number of `"<think>"` frames emitted equals the
number of Idle→Reasoning transitions, and equals the number of
`"</think>"` frames plus one exactly when the stream ends while still
in Reasoning; the terminal frame carries empty content, so no closing
delimiter is emitted at stream end. -/
theorem claim_C4_sequencer_delimiters (parse : String → Option Json) (model : String)
    (chunks : List Chunk) (h : ∀ ck ∈ chunks, chunkDelimFree ck = true) :
    ((processStream parse model chunks).countP isOpenFrame = opensCount false chunks)
  ∧ ((processStream parse model chunks).countP isOpenFrame
      = (processStream parse model chunks).countP isCloseFrame
        + (if seqFinal false chunks = true then 1 else 0))
  ∧ (((processStream parse model chunks).getLast?).map (fun f => f.message.content)
      = some "") := by
  obtain ⟨ho, hc, _⟩ := streamLoop_counts parse model chunks initLoopState h
  have hopen : (processStream parse model chunks).countP isOpenFrame
      = opensCount false chunks := by
    unfold processStream
    rw [List.countP_append, ho]
    simp [List.countP_cons, isOpenFrame, makeOllamaChunk, initLoopState]
  have hclose : (processStream parse model chunks).countP isCloseFrame
      = closesCount false chunks := by
    unfold processStream
    rw [List.countP_append, hc]
    simp [List.countP_cons, isCloseFrame, makeOllamaChunk, initLoopState]
  refine ⟨hopen, ?_, ?_⟩
  · rw [hopen, hclose]
    have hbal := opens_closes_balance chunks false
    cases hsf : seqFinal false chunks <;> simp [hsf] at hbal ⊢ <;> omega
  · unfold processStream
    rw [List.getLast?_concat]
    simp [makeOllamaChunk]

/-- Witness for C4 at a concrete input: a reasoning delta followed by
an answer delta; one opening delimiter is counted, matching one
Idle→Reasoning transition. -/
theorem claim_C4_sequencer_delimiters_witness :
    (∀ ck ∈ [wChunkReason, wChunkAnswer], chunkDelimFree ck = true)
  ∧ ((processStream wParse "m" [wChunkReason, wChunkAnswer]).countP isOpenFrame
      = opensCount false [wChunkReason, wChunkAnswer]) :=
  ⟨by decide,
    (claim_C4_sequencer_delimiters wParse "m" [wChunkReason, wChunkAnswer] (by decide)).1⟩

/-- C5: the terminal frame's `done_reason` is the mapped image of the
last finish reason supplied by the stream — passed through for `"stop"`
and `"tool_calls"`, normalized to `"stop"` for every other value — and
it is unset exactly when no delta-carrying chunk supplied a reason. -/
theorem claim_C5_finish_reason (parse : String → Option Json) (model : String)
    (chunks : List Chunk) :
    (((processStream parse model chunks).getLast?).map OllamaChunkResponse.done_reason
      = some (((suppliedReasons chunks).getLast?).map mapFinishReason))
  ∧ ((((processStream parse model chunks).getLast?).map OllamaChunkResponse.done_reason
      = some none) ↔ suppliedReasons chunks = [])
  ∧ mapFinishReason "stop" = "stop"
  ∧ mapFinishReason "tool_calls" = "tool_calls"
  ∧ (∀ r : String, r ≠ "stop" → r ≠ "tool_calls" → mapFinishReason r = "stop") := by
  have hlast : (processStream parse model chunks).getLast?
      = some (makeOllamaChunk parse model "" true
          (streamLoop parse model initLoopState chunks).1.finish_reason
          (some (streamLoop parse model initLoopState chunks).1.finalToolCalls)) := by
    unfold processStream
    exact List.getLast?_concat _
  have hfr := streamLoop_finish parse model chunks initLoopState
  have hmain : ((processStream parse model chunks).getLast?).map OllamaChunkResponse.done_reason
      = some (((suppliedReasons chunks).getLast?).map mapFinishReason) := by
    rw [hlast]
    rcases hl : (suppliedReasons chunks).getLast? with _ | r
    · rw [hl] at hfr
      have hfr2 : (streamLoop parse model initLoopState chunks).1.finish_reason = none := hfr
      simp [makeOllamaChunk, hfr2]
    · rw [hl] at hfr
      have hfr2 : (streamLoop parse model initLoopState chunks).1.finish_reason
          = some (mapFinishReason r) := hfr
      simp [makeOllamaChunk, hfr2]
  refine ⟨hmain, ?_, rfl, rfl, ?_⟩
  · rw [hmain]
    constructor
    · intro h
      have h2 : ((suppliedReasons chunks).getLast?).map mapFinishReason = none :=
        Option.some.inj h
      rcases hl : (suppliedReasons chunks).getLast? with _ | r
      · exact List.getLast?_eq_none_iff.mp hl
      · rw [hl] at h2
        simp at h2
    · intro h
      rw [h]
      rfl
  · intro r h1 h2
    simp [mapFinishReason, h1, h2]

/-- Witness for C5 at a concrete input: a stream whose single chunk
supplies the finish reason `"length"`; the terminal frame's reason is
normalized to `"stop"`. -/
theorem claim_C5_finish_reason_witness :
    (((processStream wParse "m" [wChunkLength]).getLast?).map OllamaChunkResponse.done_reason
      = some (((suppliedReasons [wChunkLength]).getLast?).map mapFinishReason))
  ∧ ("length" ≠ "stop" ∧ "length" ≠ "tool_calls" ∧ mapFinishReason "length" = "stop") :=
  ⟨(claim_C5_finish_reason wParse "m" [wChunkLength]).1,
    by decide,
    by decide,
    (claim_C5_finish_reason wParse "m" [wChunkLength]).2.2.2.2 "length" (by decide) (by decide)⟩

/-- C6: a tool-role message pops the oldest queued correlation id
(FIFO) and mints a fresh id instead of failing when the queue is empty;
for an assistant message with tool calls followed immediately by a tool
message, the tool message's id equals the id of the first tool-call
entry minted for that assistant message, also when it declared several
tool calls. -/
theorem claim_C6_tool_message_ids (fresh : Nat → String) (hf : ∀ k, fresh k ≠ "") :
    (∀ (content : String) (imgs : Option (List String))
       (tcn : Option (List OllamaToolCallEntry)) (rest : List OllamaChatMessage)
       (q : List String) (ctr : Nat), (∀ x ∈ q, x ≠ "") →
       (convertGo fresh
           ({ role := ORole.tool, images := imgs, content := content, tool_calls := tcn }
             :: rest) q ctr).head?
         = some (ChatCompletionMessageParam.toolMessage content (q.headD (fresh ctr))))
  ∧ (∀ (acontent tcontent : String) (e : OllamaToolCallEntry)
       (es : List OllamaToolCallEntry) (rest : List OllamaChatMessage)
       (q : List String) (ctr : Nat),
       ((convertGo fresh
           ({ role := ORole.assistant, images := none, content := acontent,
              tool_calls := some (e :: es) }
             :: { role := ORole.tool, images := none, content := tcontent, tool_calls := none }
             :: rest) q ctr).take 2
         = [ChatCompletionMessageParam.assistantWithToolCalls acontent
              (mintOutCalls fresh ctr (e :: es)),
            ChatCompletionMessageParam.toolMessage tcontent (fresh ctr)])
       ∧ ((mintOutCalls fresh ctr (e :: es)).head?.map OutboundToolCall.id
           = some (fresh ctr))) := by
  constructor
  · intro content imgs tcn rest q ctr hq
    rcases q with _ | ⟨h1, t⟩
    · simp [convertGo, convertStep]
    · have hne : h1 ≠ "" := hq h1 (List.mem_cons_self h1 t)
      simp [convertGo, convertStep, hne]
  · intro acontent tcontent e es rest q ctr
    have hne : fresh ctr ≠ "" := hf ctr
    constructor
    · simp [convertGo, convertStep, mintOutCalls, hne]
    · simp [mintOutCalls]

/-- Witness for C6 at a concrete input: an assistant message with one
declared tool call immediately followed by a tool message; the tool
message receives the first minted id. -/
theorem claim_C6_tool_message_ids_witness :
    ((convertGo wFresh
        ({ role := ORole.assistant, images := none, content := "",
           tool_calls := some [{ name := "t1", arguments := Json.obj [] }] }
          :: { role := ORole.tool, images := none, content := "result", tool_calls := none }
          :: []) [] 0).take 2
      = [ChatCompletionMessageParam.assistantWithToolCalls ""
           (mintOutCalls wFresh 0 [{ name := "t1", arguments := Json.obj [] }]),
         ChatCompletionMessageParam.toolMessage "result" (wFresh 0)])
  ∧ ((mintOutCalls wFresh 0 [{ name := "t1", arguments := Json.obj [] }]).head?.map
        OutboundToolCall.id = some (wFresh 0)) :=
  (claim_C6_tool_message_ids wFresh (fun _ => (by decide : ("cid" : String) ≠ ""))).2 "" "result"
    { name := "t1", arguments := Json.obj [] } [] [] [] 0

/-- C9: the per-request cleanup routine is idempotent — repeating it any
number of times from any combination of triggers leaves the abort/timer
state identical to invoking it once, the `abort()` side effect happens
at most once, and every exit path of the request ends in the
cleaned-up state. -/
theorem claim_C9_cleanup_idempotent :
    (∀ s : ConnState, cleanup (cleanup s) = cleanup s)
  ∧ (∀ (n : Nat) (s : ConnState), cleanup^[n + 1] s = cleanup s)
  ∧ (∀ (exit : ExitPath) (s : ConnState), requestLifecycle exit s = cleanup s)
  ∧ (∀ s : ConnState,
      (cleanup s).aborted = true ∧ (cleanup s).timerActive = false
        ∧ (cleanup s).abortCalls = s.abortCalls + (if s.aborted = true then 0 else 1)) := by
  have hid : ∀ s : ConnState, cleanup (cleanup s) = cleanup s := by
    intro s
    cases hs : s.aborted <;> simp [cleanup, hs]
  refine ⟨hid, ?_, ?_, ?_⟩
  · intro n s
    induction n with
    | zero => rw [Function.iterate_one]
    | succ k ih => rw [Function.iterate_succ_apply', ih, hid]
  · intro exit s
    cases exit <;> simp [requestLifecycle, hid]
  · intro s
    cases hs : s.aborted <;> simp [cleanup, hs]

/-- C7: every `remote_tool` declaration is discarded without error,
every `local_tool` declaration becomes a function tool, an empty
declared parameter record is replaced by the minimal empty-object JSON
schema, and the conversion yields `undefined` (so the `tools` field is
omitted) exactly when no local declaration remains. -/
theorem claim_C7_tool_conversion (tools : List RaycastRequestTool) :
    (convertRaycastToolsToOpenAI (some (tools.map parseRaycastTool))
      = if (tools.filter isLocalTool).length = 0 then none
        else some ((tools.filter isLocalTool).map fun t =>
          ({ type := "function",
             function :=
               { name := (toolFunction t).name,
                 description := (toolFunction t).description,
                 parameters := transformParameters (toolFunction t).parameters } } :
            ChatCompletionToolOut)))
  ∧ (transformParameters []
      = [("type", Json.str "object"), ("properties", Json.obj []), ("required", Json.arr [])])
  ∧ (∀ ps : List (String × Json), ps ≠ [] → transformParameters ps = ps)
  ∧ (convertRaycastToolsToOpenAI (some (tools.map parseRaycastTool)) = none
      ↔ tools.filter isLocalTool = []) := by
  have hmain : convertRaycastToolsToOpenAI (some (tools.map parseRaycastTool))
      = if (tools.filter isLocalTool).length = 0 then none
        else some ((tools.filter isLocalTool).map fun t =>
          ({ type := "function",
             function :=
               { name := (toolFunction t).name,
                 description := (toolFunction t).description,
                 parameters := transformParameters (toolFunction t).parameters } } :
            ChatCompletionToolOut)) := by
    rw [show convertRaycastToolsToOpenAI (some (tools.map parseRaycastTool))
        = (if ((tools.map parseRaycastTool).filter isLocalTool).length = 0 then none
           else some (((tools.map parseRaycastTool).filter isLocalTool).map fun tool =>
             ({ type := "function", function := toolFunction tool } : ChatCompletionToolOut)))
      from rfl]
    rw [filter_parse_comm, List.length_map, List.map_map]
    by_cases h : (tools.filter isLocalTool).length = 0
    · rw [if_pos h, if_pos h]
    · rw [if_neg h, if_neg h]
      congr 1
      apply List.map_congr_left
      intro t ht
      have hl : isLocalTool t = true := (List.mem_filter.mp ht).2
      cases t with
      | remoteTool n => simp [isLocalTool] at hl
      | localTool f => simp [Function.comp, parseRaycastTool, toolFunction]
  refine ⟨hmain, rfl, ?_, ?_⟩
  · intro ps hps
    unfold transformParameters
    rw [if_neg fun h => hps (List.length_eq_zero.mp h)]
  · rw [hmain]
    constructor
    · intro hc
      by_cases h : (tools.filter isLocalTool).length = 0
      · exact List.length_eq_zero.mp h
      · rw [if_neg h] at hc
        exact absurd hc (by simp)
    · intro hc
      rw [if_pos (by rw [hc]; rfl)]

/-- C8: model resolution concatenates static models with discovered
models and takes the first exact name match (static first); a failed
discovery call contributes the empty list and never aborts resolution;
an unresolvable name yields a 400 error naming the model, with no frame
written. -/
theorem claim_C8_model_resolution (parse : String → Option Json) (fresh : Nat → String)
    (models : List ModelConfig) (dyn : FetchOutcome) (requested : String)
    (messages : List OllamaChatMessage) (tools : List RaycastRequestTool)
    (chunks : List Chunk) :
    (fetchLocalOllamaModels FetchOutcome.fetchError = []
      ∧ ∀ st, fetchLocalOllamaModels (FetchOutcome.notOk st) = [])
  ∧ (∀ (sm dm : List ModelConfig) (n : String),
      findModelConfig (sm ++ dm) n = (findModelConfig sm n).or (findModelConfig dm n))
  ∧ (findModelConfig (models ++ fetchLocalOllamaModels dyn) requested = none →
      chatCompletion parse fresh models dyn requested messages tools chunks
        = Except.error { status := 400, message := "Model " ++ requested ++ " not found" })
  ∧ (∀ cfg, findModelConfig models requested = some cfg →
      chatCompletion parse fresh models FetchOutcome.fetchError requested messages tools chunks
        = Except.ok (processStream parse requested chunks)) := by
  refine ⟨⟨rfl, fun _ => rfl⟩, ?_, ?_, ?_⟩
  · intro sm dm n
    unfold findModelConfig
    exact List.find?_append
  · intro h
    simp [chatCompletion, h]
  · intro cfg h
    simp [chatCompletion, fetchLocalOllamaModels, h]

/-- Witness for C8 at a concrete input: the unknown model name
`"ghost-model"` with a failing discovery call produces the 400 error. -/
theorem claim_C8_model_resolution_witness :
    chatCompletion wParse wFresh [cfgStatic] FetchOutcome.fetchError "ghost-model" [] [] []
      = Except.error { status := 400, message := "Model ghost-model not found" } :=
  (claim_C8_model_resolution wParse wFresh [cfgStatic] FetchOutcome.fetchError "ghost-model"
      [] [] []).2.2.1 (by rfl)

/-- Witness for C7 at a concrete input: a remote declaration and a
local declaration with an empty parameter record. -/
theorem claim_C7_tool_conversion_witness :
    (convertRaycastToolsToOpenAI
        (some ([RaycastRequestTool.remoteTool "r",
                RaycastRequestTool.localTool
                  { name := "l", description := "d", parameters := [] }].map parseRaycastTool))
      = if ([RaycastRequestTool.remoteTool "r",
             RaycastRequestTool.localTool
               { name := "l", description := "d", parameters := [] }].filter
               isLocalTool).length = 0 then none
        else some (([RaycastRequestTool.remoteTool "r",
                     RaycastRequestTool.localTool
                       { name := "l", description := "d", parameters := [] }].filter
                     isLocalTool).map fun t =>
          ({ type := "function",
             function :=
               { name := (toolFunction t).name,
                 description := (toolFunction t).description,
                 parameters := transformParameters (toolFunction t).parameters } } :
            ChatCompletionToolOut)))
  ∧ ([] : List (String × Json)) ≠ [("k", Json.null)]
  ∧ transformParameters [("k", Json.null)] = [("k", Json.null)] :=
  ⟨(claim_C7_tool_conversion _).1, by simp,
    (claim_C7_tool_conversion []).2.2.1 [("k", Json.null)] (by simp)⟩

end RaycastProxy
